import Mathlib

/-!
Verification of the Zoros repository's Fiber lineage model and its consumers.

Embedded source files:
* `src/source/challenges/visualization/o4-mini-high/fiber.js`
  (classes `Fiber`, `WarpFiber`, `WeftFiber`) — namespace `Viz`.
* `src/unnamed/part_004` (`filterFibers` in the FiberCardViewer component,
  over the `Fiber` interface of
  `src/frontend/main_app/src/hooks/useZorosStore.tsx`) — namespace `Store`.
* `src/source/services/whisper/transcriptionService.ts`
  (`fakeTranscription`, `transcribeAudioFile`, `transcribeRawAudio`) —
  namespace `Whisper`.

The spec (spec.md) presents the JS `color` field of `Fiber` under the
abstract names `stage_tag` (the Fiber's current field) and `label` (the
field inside a history entry); section 6 of the spec writes the history
entry field as `label/color`.  The embedding keeps the source's name
`color`.
-/

namespace Viz

/-- The third field of a history entry.  In the JS source the initial
`start` entry is built as `{ stage: 'start', color: this.color }` — the
`context` key is **absent** — while `transform` always assigns the key,
with value `null` when the caller omitted the argument (the parameter
default `context = null`).  `JSON.stringify` omits an absent key and
prints `null` for a null one, so the three cases are distinguishable in
the exported lineage and are modelled separately. -/
inductive CtxField where
  | absent
  | null
  | payload (s : String)
deriving DecidableEq, Repr

/-- One element of `this.history`: `{ stage, color }` for the creation
entry, `{ stage, color, context }` for entries pushed by `transform`. -/
structure HistoryEntry where
  stage : String
  color : String
  context : CtxField
deriving DecidableEq, Repr

/-- The `Fiber` class of `fiber.js`: identifier, current color tag,
append-only history, marker list. -/
structure Fiber where
  id : String
  color : String
  history : List HistoryEntry
  markers : List String
deriving DecidableEq, Repr

/-- `constructor(id, colorStart = 'gold')`: sets `this.id`, `this.color`,
`this.history = [{ stage: 'start', color: this.color }]` (no `context`
key), `this.markers = []`. -/
def Fiber.create (id : String) (colorStart : String) : Fiber :=
  { id := id
    color := colorStart
    history := [{ stage := "start", color := colorStart, context := CtxField.absent }]
    markers := [] }

/-- The `context` argument of `transform`.  A JS caller passes either a
string payload, or `null`/`undefined` (both of which leave the parameter
at its default `null`, modelled as `none`); omission is `none` via
`Fiber.transformNoCtx`. -/
def ctxOfArg : Option String → CtxField
  | Option.none => CtxField.null
  | Option.some s => CtxField.payload s

/-- `transform(type, color, context = null)`: sets `this.color = color`,
pushes `{ stage: type, color, context }`, returns `this`.  The returned
value is the updated Fiber (the JS method returns the same object after
mutating it in place). -/
def Fiber.transform (f : Fiber) (type : String) (color : String)
    (context : Option String) : Fiber :=
  { f with
    color := color
    history := f.history ++ [{ stage := type, color := color, context := ctxOfArg context }] }

/-- A `transform` call with the `context` argument omitted: the JS
parameter default `context = null` applies. -/
def Fiber.transformNoCtx (f : Fiber) (type : String) (color : String) : Fiber :=
  f.transform type color Option.none

/-- `addMarker(markerType)`: pushes onto `this.markers`, returns `this`. -/
def Fiber.addMarker (f : Fiber) (markerType : String) : Fiber :=
  { f with markers := f.markers ++ [markerType] }

/-! ### `JSON.stringify(·, null, 2)` for the exported lineage shape

`exportLineage` returns
`JSON.stringify({ id: this.id, history: this.history, markers: this.markers }, null, 2)`.
The serializer below reproduces `JSON.stringify` with two-space indent on
exactly this value shape: a top-level object whose fields sit at indent 2,
arrays whose elements sit at indent 4, and history-entry objects whose
fields sit at indent 6; an empty array prints as `[]`; an absent `context`
key is omitted, a null one prints as `null`. -/

/-- Lowercase hex digit, as used by `JSON.stringify` in `\u00XX` escapes. -/
def hexDigit (n : Nat) : Char :=
  if n < 10 then Char.ofNat (48 + n) else Char.ofNat (87 + n)

/-- JSON string-character escaping of `JSON.stringify`: `"`, `\`,
backspace, form feed, newline, carriage return, tab get two-character
escapes; remaining control characters below U+0020 get `\u00XX`. -/
def escapeChar (c : Char) : String :=
  if c = Char.ofNat 34 then "\\\""
  else if c = Char.ofNat 92 then "\\\\"
  else if c = Char.ofNat 8 then "\\b"
  else if c = Char.ofNat 12 then "\\f"
  else if c = Char.ofNat 10 then "\\n"
  else if c = Char.ofNat 13 then "\\r"
  else if c = Char.ofNat 9 then "\\t"
  else if c.toNat < 32 then
    String.mk ['\\', 'u', '0', '0', hexDigit (c.toNat / 16), hexDigit (c.toNat % 16)]
  else String.singleton c

/-- A JSON string literal: quoted, characters escaped. -/
def jsonQuote (s : String) : String :=
  "\"" ++ String.join (s.data.map escapeChar) ++ "\""

/-- Separator-joined list of strings, as `JSON.stringify` joins the
serialized elements of a non-empty array. -/
def joinSep (sep : String) : List String → String
  | [] => ""
  | [s] => s
  | s :: rest => s ++ sep ++ joinSep sep rest

/-- The serialized `context` key of a history entry: omitted when absent,
`null` when null, a string literal otherwise (indent 6, preceded by the
separator after the `color` field). -/
def serializeCtx : CtxField → String
  | CtxField.absent => ""
  | CtxField.null => ",\n      \"context\": null"
  | CtxField.payload s => ",\n      \"context\": " ++ jsonQuote s

/-- One history entry as `JSON.stringify` prints it inside the `history`
array (object at indent 4, fields at indent 6). -/
def serializeEntry (e : HistoryEntry) : String :=
  "    \x7b\n      \"stage\": " ++ jsonQuote e.stage ++
  ",\n      \"color\": " ++ jsonQuote e.color ++
  serializeCtx e.context ++ "\n    \x7d"

/-- The `history` array at indent 2: `[]` when empty, otherwise entries at
indent 4 joined by `,\n` with the closing bracket at indent 2. -/
def serializeHistory : List HistoryEntry → String
  | [] => "[]"
  | e :: es =>
    "[\n" ++ joinSep ",\n" ((e :: es).map serializeEntry) ++ "\n  ]"

/-- The `markers` array at indent 2: `[]` when empty, otherwise string
literals at indent 4. -/
def serializeMarkers : List String → String
  | [] => "[]"
  | m :: ms =>
    "[\n" ++ joinSep ",\n" ((m :: ms).map (fun s => "    " ++ jsonQuote s)) ++ "\n  ]"

/-- `JSON.stringify({ id, history, markers }, null, 2)`. -/
def jsonStringifyLineage (id : String) (history : List HistoryEntry)
    (markers : List String) : String :=
  "\x7b\n  \"id\": " ++ jsonQuote id ++
  ",\n  \"history\": " ++ serializeHistory history ++
  ",\n  \"markers\": " ++ serializeMarkers markers ++ "\n\x7d"

/-- `exportLineage()`: serializes `{ id: this.id, history: this.history,
markers: this.markers }`.  The method body only reads fields. -/
def Fiber.exportLineage (f : Fiber) : String :=
  jsonStringifyLineage f.id f.history f.markers

/-! ### Subclasses

`export class WarpFiber extends Fiber {}` and
`export class WeftFiber extends Fiber {}` declare no members: their
constructors and every method are inherited from `Fiber` unchanged. -/

/-- `new WarpFiber(id, colorStart)`: the inherited `Fiber` constructor. -/
def WarpFiber.create (id : String) (colorStart : String) : Fiber :=
  Fiber.create id colorStart

/-- `new WeftFiber(id, colorStart)`: the inherited `Fiber` constructor. -/
def WeftFiber.create (id : String) (colorStart : String) : Fiber :=
  Fiber.create id colorStart

/-! ### Operation traces

The mutating interface of a live Fiber, for stating whole-lifetime
invariants: any finite sequence of `transform` / `addMarker` /
`exportLineage` calls applied after creation. -/

/-- One method call on a Fiber. -/
inductive Op where
  | transform (type : String) (color : String) (context : Option String)
  | addMarker (marker : String)
  | exportLineage
deriving DecidableEq, Repr

/-- The state reached after one call; `exportLineage` only reads fields. -/
def applyOp (f : Fiber) : Op → Fiber
  | Op.transform t c ctx => f.transform t c ctx
  | Op.addMarker m => f.addMarker m
  | Op.exportLineage => f

/-- The state reached after a call sequence. -/
def run (f : Fiber) (ops : List Op) : Fiber :=
  ops.foldl applyOp f

/-- One call with its observable output: only `exportLineage` returns a
value other than the receiver. -/
def stepOut (f : Fiber) (op : Op) : Fiber × Option String :=
  match op with
  | Op.exportLineage => (f, Option.some f.exportLineage)
  | _ => (applyOp f op, Option.none)

/-- Number of `transform` calls in a sequence. -/
def countTransforms : List Op → Nat
  | [] => 0
  | Op.transform _ _ _ :: rest => countTransforms rest + 1
  | _ :: rest => countTransforms rest

end Viz

namespace Store

/-!
The `Fiber` interface of `useZorosStore.tsx` and the `filterFibers`
function of the FiberCardViewer component (`src/unnamed/part_004`).

The interface declares `tags: string`, but `filterFibers` guards with
`(f.tags || '')`: the runtime records fetched from `/api/fibers` may lack
the field.  `tags` is therefore modelled as `Option String` with `none`
standing for an absent (`undefined`) field; the JS guard `(f.tags || '')`
also maps the present-but-empty string to `''`, which `Option.getD ""`
reproduces exactly, since `''` is the only falsy string.
-/

/-- The content unit of `useZorosStore.tsx` (`interface Fiber`). -/
structure Fiber where
  id : String
  content : String
  tags : Option String
  created_at : String
  source : String
deriving DecidableEq, Repr

/-- Models JS `String.prototype.toLowerCase()` by per-character lowercase
mapping; agrees with JS on the ASCII range. -/
def toLowerCase (s : String) : String :=
  String.mk (s.data.map Char.toLower)

/-- Models JS `s.includes(sub)`: `sub` occurs contiguously in `s`. -/
def jsIncludes (s : String) (sub : String) : Bool :=
  decide (sub.data <:+: s.data)

/-- The filter callback of `filterFibers`, with `q` already lowercased:
`f.content.toLowerCase().includes(q) || (f.tags || '').toLowerCase().includes(q)`. -/
def matchesQuery (q : String) (f : Fiber) : Bool :=
  jsIncludes (toLowerCase f.content) q || jsIncludes (toLowerCase (f.tags.getD "")) q

/-- `filterFibers(list, query)`: lowercases the query once, then
`list.filter` with the callback above. -/
def filterFibers (list : List Fiber) (query : String) : List Fiber :=
  list.filter (matchesQuery (toLowerCase query))

end Store

namespace Whisper

/-!
`src/source/services/whisper/transcriptionService.ts` together with the
types of `whisperTypes.ts`.  The service fabricates results: no model is
invoked anywhere in the module.  JS numbers are modelled as `Nat` (the
only values occurring are byte counts, string lengths, `1`, and the unused
segment bounds); an `ArrayBuffer` is modelled as its byte sequence, so
`byteLength` is the list length.
-/

/-- `TranscriptionSegment` of `whisperTypes.ts`. -/
structure TranscriptionSegment where
  start : Nat
  «end» : Nat
deriving DecidableEq, Repr

/-- `TranscriptionResult` of `whisperTypes.ts`. -/
structure TranscriptionResult where
  text : String
  confidence : Nat
  timestamps : List TranscriptionSegment
deriving DecidableEq, Repr

/-- `AudioFormat = 'wav' | 'mp3' | 'ogg'` of `whisperTypes.ts`. -/
inductive AudioFormat where
  | wav
  | mp3
  | ogg
deriving DecidableEq, Repr

/-- The string value of a format tag. -/
def AudioFormat.str : AudioFormat → String
  | AudioFormat.wav => "wav"
  | AudioFormat.mp3 => "mp3"
  | AudioFormat.ogg => "ogg"

/-- JS `format.length`: the length of the format string. -/
def AudioFormat.length (a : AudioFormat) : Nat :=
  a.str.length

/-- `fakeTranscription(dataLen)`: text `transcribed ${dataLen} bytes`,
confidence `1`, empty `timestamps`. -/
def fakeTranscription (dataLen : Nat) : TranscriptionResult :=
  { text := "transcribed " ++ toString dataLen ++ " bytes"
    confidence := 1
    timestamps := [] }

/-- `transcribeRawAudio(buffer, format)`: computes
`buffer.byteLength + format.length` (the source comments `// fake usage`)
and returns `fakeTranscription` of that sum.  The `try`/`catch` wraps a
body that cannot throw, so the resolved value is always this result. -/
def transcribeRawAudio (buffer : List Nat) (format : AudioFormat) : TranscriptionResult :=
  fakeTranscription (buffer.length + format.length)

/-- `transcribeAudioFile(filePath)` after a successful `fs.readFile`:
returns `fakeTranscription(buf.byteLength)`.  The filesystem read is
platform code outside the module; `contents` is the byte sequence read
(the rejected branch merely re-raises the read error). -/
def transcribeAudioFileContents (contents : List Nat) : TranscriptionResult :=
  fakeTranscription contents.length

end Whisper

/-- First unit of the worked filtering example:
`{content: "hello world", tags: "foo"}` (identifier and remaining fields
are immaterial to the filter). -/
def Store.demoFiber1 : Store.Fiber :=
  { id := "1", content := "hello world", tags := Option.some "foo"
    created_at := "", source := "" }

/-- Second unit of the worked filtering example:
`{content: "another note", tags: "bar"}`. -/
def Store.demoFiber2 : Store.Fiber :=
  { id := "2", content := "another note", tags := Option.some "bar"
    created_at := "", source := "" }

/-! ## Helper lemmas -/

theorem Viz.run_nil (f : Viz.Fiber) : Viz.run f [] = f := rfl

theorem Viz.run_cons (f : Viz.Fiber) (op : Viz.Op) (ops : List Viz.Op) :
    Viz.run f (op :: ops) = Viz.run (Viz.applyOp f op) ops := rfl

theorem Viz.run_append (f : Viz.Fiber) (ops ops' : List Viz.Op) :
    Viz.run f (ops ++ ops') = Viz.run (Viz.run f ops) ops' :=
  List.foldl_append Viz.applyOp f ops ops'

theorem Viz.applyOp_history_prefix (f : Viz.Fiber) (op : Viz.Op) :
    f.history <+: (Viz.applyOp f op).history := by
  cases op with
  | transform t c ctx => exact ⟨_, rfl⟩
  | addMarker m => exact List.prefix_rfl
  | exportLineage => exact List.prefix_rfl

theorem Viz.run_history_prefix (f : Viz.Fiber) (ops : List Viz.Op) :
    f.history <+: (Viz.run f ops).history := by
  induction ops generalizing f with
  | nil => exact List.prefix_rfl
  | cons op ops ih => exact (Viz.applyOp_history_prefix f op).trans (ih (Viz.applyOp f op))

theorem Viz.run_history_length (f : Viz.Fiber) (ops : List Viz.Op) :
    (Viz.run f ops).history.length = f.history.length + Viz.countTransforms ops := by
  induction ops generalizing f with
  | nil => rfl
  | cons op ops ih =>
    rw [Viz.run_cons, ih]
    cases op with
    | transform t c ctx =>
      simp [Viz.applyOp, Viz.Fiber.transform, Viz.countTransforms]
      omega
    | addMarker m => simp [Viz.applyOp, Viz.Fiber.addMarker, Viz.countTransforms]
    | exportLineage => simp [Viz.applyOp, Viz.countTransforms]

theorem Viz.run_getLast_color (f : Viz.Fiber) (ops : List Viz.Op)
    (h : ∃ e, f.history.getLast? = Option.some e ∧ e.color = f.color) :
    ∃ e, (Viz.run f ops).history.getLast? = Option.some e ∧
      e.color = (Viz.run f ops).color := by
  induction ops generalizing f with
  | nil => exact h
  | cons op ops ih =>
    rw [Viz.run_cons]
    refine ih (Viz.applyOp f op) ?_
    cases op with
    | transform t c ctx => exact ⟨_, List.getLast?_concat _, rfl⟩
    | addMarker m => exact h
    | exportLineage => exact h

theorem Viz.run_tail_context (f : Viz.Fiber) (ops : List Viz.Op)
    (h : ∃ e0 rest, f.history = e0 :: rest ∧
      ∀ e ∈ rest, e.context ≠ Viz.CtxField.absent) :
    ∃ e0 rest, (Viz.run f ops).history = e0 :: rest ∧
      ∀ e ∈ rest, e.context ≠ Viz.CtxField.absent := by
  induction ops generalizing f with
  | nil => exact h
  | cons op ops ih =>
    rw [Viz.run_cons]
    refine ih (Viz.applyOp f op) ?_
    obtain ⟨e0, rest, heq, hrest⟩ := h
    cases op with
    | transform t c ctx =>
      refine ⟨e0, rest ++ [⟨t, c, Viz.ctxOfArg ctx⟩], ?_, ?_⟩
      · simp [Viz.applyOp, Viz.Fiber.transform, heq]
      · intro e he
        rcases List.mem_append.mp he with hm | hm
        · exact hrest e hm
        · rcases List.mem_singleton.mp hm with rfl
          cases ctx <;> simp [Viz.ctxOfArg]
    | addMarker m => exact ⟨e0, rest, heq, hrest⟩
    | exportLineage => exact ⟨e0, rest, heq, hrest⟩

theorem infix_append_left {α : Type} {s m : List α} (pre : List α) (h : s <:+: m) :
    s <:+: pre ++ m :=
  h.trans (List.suffix_append pre m).isInfix

theorem infix_append_right {α : Type} {s m : List α} (post : List α) (h : s <:+: m) :
    s <:+: m ++ post :=
  h.trans (List.prefix_append m post).isInfix

theorem Viz.joinSep_cons_cons (sep a b : String) (t : List String) :
    Viz.joinSep sep (a :: b :: t) = a ++ sep ++ Viz.joinSep sep (b :: t) := rfl

theorem Viz.infix_joinSep_of_mem (sep : String) (l : List String) (s : String)
    (h : s ∈ l) : s.data <:+: (Viz.joinSep sep l).data := by
  induction l with
  | nil => cases h
  | cons a rest ih =>
    cases rest with
    | nil =>
      rcases List.mem_singleton.mp h with rfl
      exact List.infix_rfl
    | cons b t =>
      rcases List.mem_cons.mp h with rfl | hmem
      · rw [Viz.joinSep_cons_cons, String.data_append, String.data_append]
        exact infix_append_right _ (infix_append_right _ List.infix_rfl)
      · rw [Viz.joinSep_cons_cons, String.data_append]
        exact infix_append_left _ (ih hmem)

theorem Viz.serializeEntry_infix_serializeHistory (e : Viz.HistoryEntry)
    (l : List Viz.HistoryEntry) (h : e ∈ l) :
    (Viz.serializeEntry e).data <:+: (Viz.serializeHistory l).data := by
  cases l with
  | nil => cases h
  | cons a t =>
    have h1 : (Viz.serializeEntry e).data <:+:
        (Viz.joinSep ",\n" ((a :: t).map Viz.serializeEntry)).data :=
      Viz.infix_joinSep_of_mem _ _ _ (List.mem_map_of_mem Viz.serializeEntry h)
    show (Viz.serializeEntry e).data <:+:
      ("[\n" ++ Viz.joinSep ",\n" ((a :: t).map Viz.serializeEntry) ++ "\n  ]").data
    rw [String.data_append, String.data_append]
    exact infix_append_right _ (infix_append_left _ h1)

theorem Viz.serializeCtx_infix_serializeEntry (e : Viz.HistoryEntry) :
    (Viz.serializeCtx e.context).data <:+: (Viz.serializeEntry e).data := by
  show (Viz.serializeCtx e.context).data <:+:
    ("    \x7b\n      \"stage\": " ++ Viz.jsonQuote e.stage ++ ",\n      \"color\": " ++
      Viz.jsonQuote e.color ++ Viz.serializeCtx e.context ++ "\n    \x7d").data
  rw [String.data_append, String.data_append]
  exact infix_append_right _ (List.suffix_append _ _).isInfix

theorem Viz.serializeHistory_infix_exportLineage (f : Viz.Fiber) :
    (Viz.serializeHistory f.history).data <:+: f.exportLineage.data := by
  show (Viz.serializeHistory f.history).data <:+:
    ("\x7b\n  \"id\": " ++ Viz.jsonQuote f.id ++ ",\n  \"history\": " ++
      Viz.serializeHistory f.history ++ ",\n  \"markers\": " ++
      Viz.serializeMarkers f.markers ++ "\n\x7d").data
  rw [String.data_append, String.data_append, String.data_append, String.data_append]
  exact infix_append_right _ (infix_append_right _ (infix_append_right _
    (List.suffix_append _ _).isInfix))

theorem Store.matchesQuery_iff (q : String) (f : Store.Fiber) :
    Store.matchesQuery q f = true ↔
      (q.data <:+: (Store.toLowerCase f.content).data ∨
       q.data <:+: (Store.toLowerCase (f.tags.getD "")).data) := by
  simp [Store.matchesQuery, Store.jsIncludes]

theorem Store.filterFibers_empty_query (list : List Store.Fiber) :
    Store.filterFibers list "" = list := by
  refine List.filter_eq_self.mpr ?_
  intro f _
  refine (Store.matchesQuery_iff _ f).mpr (Or.inl ?_)
  exact List.nil_infix

/-! ## Claim theorems -/

/-- C3: `create(id, initial_label)` yields a Fiber whose history is exactly
the single entry `{stage: "start", label: initial_label}` (length 1, and
with no `context` key on that entry), whose current tag equals the initial
label, whose `id` is the given one, and whose markers are empty.  The
constructor is total: no error conditions. -/
theorem c3_create_spec (id colorStart : String) :
    (Viz.Fiber.create id colorStart).history =
      [{ stage := "start", color := colorStart, context := Viz.CtxField.absent }] ∧
    (Viz.Fiber.create id colorStart).history.length = 1 ∧
    (Viz.Fiber.create id colorStart).color = colorStart ∧
    (Viz.Fiber.create id colorStart).id = id ∧
    (Viz.Fiber.create id colorStart).markers = [] :=
  ⟨rfl, rfl, rfl, rfl, rfl⟩

/-- C2: `transform(stage_name, new_label, context)` appends exactly the one
entry `{stage: stage_name, label: new_label, context}`, sets the current
tag to `new_label`, leaves every earlier history entry, the markers and
the id unchanged, and is total (the returned value is the receiver after
the update, supporting chaining). -/
theorem c2_transform_spec (f : Viz.Fiber) (stage_name new_label : String)
    (context : Option String) :
    (f.transform stage_name new_label context).history =
      f.history ++
        [{ stage := stage_name, color := new_label, context := Viz.ctxOfArg context }] ∧
    (f.transform stage_name new_label context).color = new_label ∧
    (f.transform stage_name new_label context).history.take f.history.length = f.history ∧
    (f.transform stage_name new_label context).markers = f.markers ∧
    (f.transform stage_name new_label context).id = f.id :=
  ⟨rfl, rfl, List.take_left f.history _, rfl, rfl⟩

/-- C5: `add_marker(marker_label)` appends the label to the markers
(calling it twice with the same label yields the label twice — duplicates
are permitted), always succeeds, and leaves history, current tag and id
unchanged. -/
theorem c5_addMarker_spec (f : Viz.Fiber) (marker_label : String) :
    (f.addMarker marker_label).markers = f.markers ++ [marker_label] ∧
    ((f.addMarker marker_label).addMarker marker_label).markers =
      f.markers ++ [marker_label, marker_label] ∧
    (f.addMarker marker_label).history = f.history ∧
    (f.addMarker marker_label).color = f.color ∧
    (f.addMarker marker_label).id = f.id := by
  refine ⟨rfl, ?_, rfl, rfl, rfl⟩
  simp [Viz.Fiber.addMarker]

/-- C6: `export_lineage()` is a pure read: stepping it changes no field of
the Fiber, its output is the serialization of exactly the id, the full
history and the markers, and two consecutive calls with no mutation in
between return structurally equal output. -/
theorem c6_exportLineage_pure_idempotent (f : Viz.Fiber) :
    (Viz.stepOut f Viz.Op.exportLineage).1 = f ∧
    (Viz.stepOut f Viz.Op.exportLineage).2 = Option.some f.exportLineage ∧
    (Viz.stepOut (Viz.stepOut f Viz.Op.exportLineage).1 Viz.Op.exportLineage).2 =
      (Viz.stepOut f Viz.Op.exportLineage).2 ∧
    f.exportLineage = Viz.jsonStringifyLineage f.id f.history f.markers :=
  ⟨rfl, rfl, rfl, rfl⟩

/-- C8: `WarpFiber` and `WeftFiber` override nothing: from identical
constructor arguments, identical call sequences drive a `WarpFiber`, a
`WeftFiber` and a plain `Fiber` to identical states, and their exported
lineages are identical. -/
theorem c8_subclasses_no_override (id colorStart : String) (ops : List Viz.Op) :
    Viz.run (Viz.WarpFiber.create id colorStart) ops =
      Viz.run (Viz.Fiber.create id colorStart) ops ∧
    Viz.run (Viz.WeftFiber.create id colorStart) ops =
      Viz.run (Viz.Fiber.create id colorStart) ops ∧
    (Viz.run (Viz.WarpFiber.create id colorStart) ops).exportLineage =
      (Viz.run (Viz.WeftFiber.create id colorStart) ops).exportLineage :=
  ⟨rfl, rfl, rfl⟩

/-- C1: over every finite call sequence applied after creation, the history
is never empty, its length is exactly 1 plus the number of `transform`
calls so far (hence non-decreasing), the history at any earlier point is a
prefix of the history at any later point (entries are never altered,
reordered or truncated), and the current tag equals the `label` of the
last history entry. -/
theorem c1_fiber_lifetime_invariants (id colorStart : String) (ops : List Viz.Op) :
    (Viz.run (Viz.Fiber.create id colorStart) ops).history ≠ [] ∧
    (Viz.run (Viz.Fiber.create id colorStart) ops).history.length =
      1 + Viz.countTransforms ops ∧
    (∀ more : List Viz.Op,
      (Viz.run (Viz.Fiber.create id colorStart) ops).history <+:
        (Viz.run (Viz.Fiber.create id colorStart) (ops ++ more)).history) ∧
    (∃ e, (Viz.run (Viz.Fiber.create id colorStart) ops).history.getLast? =
        Option.some e ∧
      e.color = (Viz.run (Viz.Fiber.create id colorStart) ops).color) := by
  have hlen : (Viz.run (Viz.Fiber.create id colorStart) ops).history.length =
      1 + Viz.countTransforms ops := by
    rw [Viz.run_history_length]
    simp [Viz.Fiber.create]
  refine ⟨?_, hlen, ?_, ?_⟩
  · intro hnil
    rw [hnil] at hlen
    simp at hlen
    omega
  · intro more
    rw [Viz.run_append]
    exact Viz.run_history_prefix _ more
  · exact Viz.run_getLast_color _ ops ⟨_, rfl, rfl⟩

/-- C4: `filterFibers(list, query)` returns exactly the subsequence of
`list`, in the original relative order, of the units whose lowercased
content or lowercased tags contain the lowercased query as a substring;
the empty query returns the whole list unchanged; on the worked example
`[{content:"hello world", tags:"foo"}, {content:"another note", tags:"bar"}]`
the query `"bar"` selects exactly the second unit. -/
theorem c4_filterFibers_spec (list : List Store.Fiber) (query : String) :
    List.Sublist (Store.filterFibers list query) list ∧
    (∀ f : Store.Fiber, f ∈ Store.filterFibers list query ↔ f ∈ list ∧
      ((Store.toLowerCase query).data <:+: (Store.toLowerCase f.content).data ∨
       (Store.toLowerCase query).data <:+: (Store.toLowerCase (f.tags.getD "")).data)) ∧
    Store.filterFibers list "" = list ∧
    Store.filterFibers [Store.demoFiber1, Store.demoFiber2] "bar" = [Store.demoFiber2] := by
  refine ⟨List.filter_sublist list, ?_, Store.filterFibers_empty_query list, by decide⟩
  intro f
  rw [Store.filterFibers, List.mem_filter, Store.matchesQuery_iff]

/-- C9: a unit with an absent `tags` field is handled totally by
`filterFibers`: the filter callback treats it exactly as if its tags were
the empty string, it matches a query precisely when the lowercased query
is a substring of its lowercased content, and the empty query still
includes it.  No operation fails on the missing field (`(f.tags || '')`
supplies `''`). -/
theorem c9_missing_tags_safe (id content created_at source query : String)
    (list : List Store.Fiber) :
    Store.matchesQuery (Store.toLowerCase query)
        { id := id, content := content, tags := Option.none
          created_at := created_at, source := source } =
      Store.matchesQuery (Store.toLowerCase query)
        { id := id, content := content, tags := Option.some ""
          created_at := created_at, source := source } ∧
    (Store.matchesQuery (Store.toLowerCase query)
        { id := id, content := content, tags := Option.none
          created_at := created_at, source := source } = true ↔
      (Store.toLowerCase query).data <:+: (Store.toLowerCase content).data) ∧
    Store.filterFibers
        ({ id := id, content := content, tags := Option.none
           created_at := created_at, source := source } :: list) "" =
      { id := id, content := content, tags := Option.none
        created_at := created_at, source := source } :: list := by
  refine ⟨rfl, ?_, Store.filterFibers_empty_query _⟩
  rw [Store.matchesQuery_iff]
  constructor
  · intro h
    rcases h with h | h
    · exact h
    · have : (Store.toLowerCase query).data = [] := List.eq_nil_of_infix_nil h
      rw [this]
      exact List.nil_infix
  · exact Or.inl

/-- C7 counterexample: `transcribeRawAudio` on a four-byte buffer with
format `'wav'` reports `transcribed 7 bytes`, not `transcribed 4 bytes`:
the reported count is not the byte count of the supplied audio. -/
theorem c7_counterexample_raw_audio_count :
    (Whisper.transcribeRawAudio [0, 0, 0, 0] Whisper.AudioFormat.wav).text ≠
      "transcribed 4 bytes" ∧
    (Whisper.transcribeRawAudio [0, 0, 0, 0] Whisper.AudioFormat.wav).text =
      "transcribed 7 bytes" := by
  constructor
  · decide
  · rfl

/-- C7 amended: the service performs no model inference.
`transcribeRawAudio` on an n-byte buffer returns text
`transcribed ${n + format.length} bytes` — the format string's length,
always 3, is added to the byte count (the source's `// fake usage` of the
format argument) — with confidence 1 and empty timestamps;
`transcribeAudioFile` reports exactly the byte count of the file read. -/
theorem c7_amended_stub_transcription (buffer : List Nat)
    (format : Whisper.AudioFormat) (contents : List Nat) :
    (Whisper.transcribeRawAudio buffer format).text =
      "transcribed " ++ toString (buffer.length + 3) ++ " bytes" ∧
    format.length = 3 ∧
    (Whisper.transcribeRawAudio buffer format).confidence = 1 ∧
    (Whisper.transcribeRawAudio buffer format).timestamps = [] ∧
    (Whisper.transcribeAudioFileContents contents).text =
      "transcribed " ++ toString contents.length ++ " bytes" ∧
    (Whisper.transcribeAudioFileContents contents).confidence = 1 ∧
    (Whisper.transcribeAudioFileContents contents).timestamps = [] := by
  cases format <;> exact ⟨rfl, rfl, rfl, rfl, rfl, rfl, rfl⟩

/-- C10: a `transform` call with the context argument omitted appends an
entry whose `context` is recorded as null (a present field, not an absent
one); over every call sequence after creation, every history entry beyond
the initial `start` entry carries a `context` field (never the absent
case); and the serialized lineage of the updated Fiber contains the text
`"context": null` for such an entry. -/
theorem c10_omitted_context_recorded_null (f : Viz.Fiber)
    (type color id colorStart : String) (ops : List Viz.Op) :
    (f.transformNoCtx type color).history =
      f.history ++ [{ stage := type, color := color, context := Viz.CtxField.null }] ∧
    List.Forall (fun e => e.context ≠ Viz.CtxField.absent)
      (Viz.run (Viz.Fiber.create id colorStart) ops).history.tail ∧
    ("\"context\": null").data <:+: (f.transformNoCtx type color).exportLineage.data := by
  refine ⟨rfl, ?_, ?_⟩
  · obtain ⟨e0, rest, heq, hrest⟩ :=
      Viz.run_tail_context (Viz.Fiber.create id colorStart) ops
        ⟨_, [], rfl, by intro e he; cases he⟩
    rw [heq]
    exact List.forall_iff_forall_mem.mpr hrest
  · have hmem : ({ stage := type, color := color, context := Viz.CtxField.null } :
        Viz.HistoryEntry) ∈ (f.transformNoCtx type color).history :=
      List.mem_append_right f.history (List.mem_singleton.mpr rfl)
    have h1 : ("\"context\": null").data <:+:
        (Viz.serializeCtx Viz.CtxField.null).data := by decide
    have h2 := Viz.serializeCtx_infix_serializeEntry
      { stage := type, color := color, context := Viz.CtxField.null }
    have h3 := Viz.serializeEntry_infix_serializeHistory _ _ hmem
    have h4 := Viz.serializeHistory_infix_exportLineage (f.transformNoCtx type color)
    exact ((h1.trans h2).trans h3).trans h4
